import Mathlib

/-!
Shallow embedding of `run_invest.py`, a script that places buy and limit
orders for a fixed allocation table through a brokerage API.

Modelling conventions:
* decimal amounts are rationals; Python's `round(x, 2)` is `round2`
  (round to the nearest multiple of 1/100, ties up);
* Python's `int(x)` (truncation toward zero) is `pyTrunc`;
* Python truthiness on the values the script tests (`if figi:`,
  `if lot_size:`, `if discount_price:`, `if real_price:`) is modelled
  explicitly: `None`, `0`, `0.0` and the empty string are falsy;
* the broker client is a snapshot: the three instrument listings and a
  map from FIGI to the depth-1 order book's last price; portfolio
  polling reads a map from attempt number to the positions returned;
* exceptions are `Except String`; the 1-second `time.sleep(1)` before
  each portfolio poll is represented only by the attempt counter.
-/

/-- Python `round(x, 2)`: round to two decimal places. -/
def round2 (q : ℚ) : ℚ := (round (q * 100) : ℚ) / 100

/-- Python `int(x)`: truncation toward zero. -/
def pyTrunc (q : ℚ) : ℤ := if 0 ≤ q then ⌊q⌋ else ⌈q⌉

/-- The broker's fixed-point money representation: integer units plus
nanoseconds-scaled fractional units. -/
structure MoneyValue where
  units : ℤ
  nano : ℤ
  deriving DecidableEq, Repr

/-- `money_value_to_float`: `round(money.units + money.nano / 1e9, 2)`. -/
def money_value_to_float (money : MoneyValue) : ℚ :=
  round2 (money.units + money.nano / 10 ^ 9)

/-- The `MoneyValue(units=int(p), nano=int((p % 1) * 1e9))` constructor used
when a limit order's price is submitted (line 154 of the script); Python's
`p % 1` with a positive divisor is `p - ⌊p⌋`. -/
def encodeMoney (p : ℚ) : MoneyValue :=
  ⟨pyTrunc p, pyTrunc ((p - ⌊p⌋) * 10 ^ 9)⟩

/-- One instrument row of a listing, with the fields the script reads:
ticker, FIGI, lot size, and (for bonds) the nominal value. -/
structure Instr where
  ticker : String
  figi : String
  lot : ℤ
  nominal : MoneyValue
  deriving DecidableEq, Repr

/-- A snapshot of the broker data the script queries: the `shares`, `etfs`
and `bonds` listings and the last price of the depth-1 order book per FIGI. -/
structure ClientData where
  shares : List Instr
  etfs : List Instr
  bonds : List Instr
  lastPrice : String → MoneyValue

/-- One pass of the `get_figi` loop body over a single listing:
`next((instr.figi for instr in instruments if instr.ticker == ticker), None)`
followed by the truthiness test `if figi:` — an empty-string FIGI is falsy
and is not returned. -/
def figiOf (l : List Instr) (t : String) : Option String :=
  match l.find? (fun i => i.ticker == t) with
  | some i => if i.figi = "" then none else some i.figi
  | none => none

/-- `get_figi`: scan `shares`, then `etfs`, then `bonds`; `none` models the
raised `ValueError` when no listing yields a truthy FIGI. -/
def get_figi (c : ClientData) (t : String) : Option String :=
  (figiOf c.shares t).or ((figiOf c.etfs t).or (figiOf c.bonds t))

/-- One pass of the `get_lot_size` loop body over a single listing, with the
truthiness test `if lot_size:` — a lot of `0` is falsy and is not returned. -/
def lotOf (l : List Instr) (t : String) : Option ℤ :=
  match l.find? (fun i => i.ticker == t) with
  | some i => if i.lot = 0 then none else some i.lot
  | none => none

/-- `get_lot_size`: scan `shares`, then `etfs`, then `bonds`; `none` models
the raised `ValueError`. -/
def get_lot_size (c : ClientData) (t : String) : Option ℤ :=
  (lotOf c.shares t).or ((lotOf c.etfs t).or (lotOf c.bonds t))

/-- `get_share_price`: fetch the depth-1 order book's last price for the
FIGI; if some bond in the `bonds` listing carries this FIGI, the quote is a
percent of nominal and is rescaled by the bond's nominal value, otherwise
the decoded last price is returned rounded to 2 decimals. -/
def get_share_price (c : ClientData) (figi : String) : ℚ :=
  let last := c.lastPrice figi
  match c.bonds.find? (fun b => b.figi == figi) with
  | some bond =>
      round2 (money_value_to_float last * money_value_to_float bond.nominal / 100)
  | none => round2 (money_value_to_float last)

/-- `DEFAULT_DISCOUNT = 3` (percent). -/
def DEFAULT_DISCOUNT : ℚ := 3

/-- One allocation entry of the `SHARES` table: the target amount, an
optional discount percent and an optional fixed price. -/
structure Params where
  amount : ℚ
  discount : Option ℚ
  discount_price : Option ℚ
  deriving DecidableEq, Repr

/-- The limit-price computation of `place_limit_order`:
`discount_price if discount_price else round(price * (1 - discount / 100), 2)`
with `discount = params.get("discount", DEFAULT_DISCOUNT)`.  A present but
zero `discount_price` is falsy in Python and falls through to the
discounted price. -/
def limit_price_calc (price : ℚ) (params : Params) : ℚ :=
  let discount := params.discount.getD DEFAULT_DISCOUNT
  match params.discount_price with
  | some dp => if dp = 0 then round2 (price * (1 - discount / 100)) else dp
  | none => round2 (price * (1 - discount / 100))

/-- The lot-sizing expression `int(money_amount // (unit_price * lot_size))`
shared by `place_limit_order` (line 134) and `buy_share` (line 181):
floor division of the amount by the cost of one lot. -/
def lots_affordable (amount unit_price : ℚ) (lot_size : ℤ) : ℤ :=
  ⌊amount / (unit_price * lot_size)⌋

/-- The order submitted through `client.orders.post_order`: limit orders
carry an encoded price, market orders do not. -/
structure PostOrder where
  figi : String
  quantity : ℤ
  price : Option MoneyValue
  deriving DecidableEq, Repr

/-- The observable outcome of a submitted limit order, with the quantities
the script computes and logs. -/
structure PlacedLimit where
  order : PostOrder
  lots : ℤ
  lot_size : ℤ
  limit_price : ℚ
  price : ℚ
  total_cost : ℚ
  deriving DecidableEq, Repr

/-- `place_limit_order`: price the instrument, look up the lot size
(raising when absent), compute the limit price and the affordable lots;
submit the order only when the lot count is positive, otherwise report
insufficient funds (`.ok none`). -/
def place_limit_order (c : ClientData) (figi ticker : String)
    (money_amount : ℚ) (params : Params) : Except String (Option PlacedLimit) :=
  let price := get_share_price c figi
  match get_lot_size c ticker with
  | none => .error ("lot for " ++ ticker ++ " not found")
  | some lot_size =>
      let limit_price := limit_price_calc price params
      let lots := lots_affordable money_amount limit_price lot_size
      if 0 < lots then
        .ok (some ⟨⟨figi, lots, some (encodeMoney limit_price)⟩,
          lots, lot_size, limit_price, price, lots * lot_size * limit_price⟩)
      else .ok none

/-- One portfolio position as read by the confirmation loop of
`buy_share`: its FIGI and its average entry price when populated. -/
structure Position where
  figi : String
  average_position_price : Option MoneyValue
  deriving DecidableEq, Repr

/-- The inner loop of a single polling attempt: the first position whose
FIGI matches and whose average price is populated, decoded. -/
def findPrice (positions : List Position) (figi : String) : Option ℚ :=
  match positions.find? (fun p => p.figi == figi && p.average_position_price.isSome) with
  | some p => some (money_value_to_float (p.average_position_price.getD ⟨0, 0⟩))
  | none => none

/-- Python truthiness of the `real_price` variable: `None` and `0.0` are
falsy. -/
def pyTruthyQ : Option ℚ → Bool
  | none => false
  | some q => decide (q ≠ 0)

/-- The `for attempt in range(fuel)` polling loop of `buy_share`: each
iteration sleeps one second, reads the portfolio snapshot for the current
attempt, updates `real_price` from the first matching position if any, and
exits early once `real_price` is truthy.  Returns the final `real_price`
and the number of attempts performed. -/
def poll_positions (P : ℕ → List Position) (figi : String)
    (rp : Option ℚ) (attempt fuel : ℕ) : Option ℚ × ℕ :=
  match fuel with
  | 0 => (rp, attempt)
  | fuel + 1 =>
      let rp' :=
        match findPrice (P attempt) figi with
        | some q => some q
        | none => rp
      if pyTruthyQ rp' then (rp', attempt + 1)
      else poll_positions P figi rp' (attempt + 1) fuel

/-- The execution-price confirmation of `buy_share`: when the order
response carries an executed price it is decoded and no polling happens
(0 attempts); otherwise the portfolio is polled up to 5 times. -/
def buy_confirm (executed : Option MoneyValue) (P : ℕ → List Position)
    (figi : String) : Option ℚ × ℕ :=
  match executed with
  | some m => (some (money_value_to_float m), 0)
  | none => poll_positions P figi none 0 5

/-- The observable outcome of a submitted market order: the computed
quantities, the discovered execution price (when any) and the number of
polling attempts that were performed. -/
structure PlacedMarket where
  order : PostOrder
  lots : ℤ
  lot_size : ℤ
  price : ℚ
  total_price : ℚ
  real_price : Option ℚ
  attempts : ℕ
  deriving DecidableEq, Repr

/-- `buy_share`: look up the lot size (raising when absent), price the
instrument at the raw market price, compute the affordable lots; submit a
market order and run the confirmation only when the lot count is positive,
otherwise report insufficient funds (`.ok none`). -/
def buy_share (c : ClientData) (figi ticker : String) (money_amount : ℚ)
    (executed : Option MoneyValue) (P : ℕ → List Position) :
    Except String (Option PlacedMarket) :=
  match get_lot_size c ticker with
  | none => .error ("lot for " ++ ticker ++ " not found")
  | some lot_size =>
      let price := get_share_price c figi
      let lots := lots_affordable money_amount price lot_size
      if 0 < lots then
        let conf := buy_confirm executed P figi
        .ok (some ⟨⟨figi, lots, none⟩, lots, lot_size, price,
          lots * lot_size * price, conf.1, conf.2⟩)
      else .ok none

/-- An open order as returned by `client.orders.get_orders`. -/
structure OpenOrder where
  order_id : String
  deriving DecidableEq, Repr

/-- `cancel_orders`: for each open order attempt a cancellation, recording
success or failure per order; the `try`/`except` around each attempt means
a failure never interrupts the loop.  `cancel` maps an order id to the
API call's outcome. -/
def cancel_orders (cancel : String → Except String Unit) :
    List OpenOrder → List (String × Bool)
  | [] => []
  | o :: rest =>
      match cancel o.order_id with
      | .ok _ => (o.order_id, true) :: cancel_orders cancel rest
      | .error _ => (o.order_id, false) :: cancel_orders cancel rest

/-- One iteration of the mode-1 loop of `main`: resolve the FIGI (raising
when absent) and run `place_limit_order`; the surrounding `try`/`except`
turns any raise into a logged, per-entry error. -/
def process1 (c : ClientData) (t : String) (ps : Params) :
    Except String (Option PlacedLimit) :=
  match get_figi c t with
  | none => .error ("ticker " ++ t ++ " not found")
  | some figi => place_limit_order c figi t ps.amount ps

/-- The mode-1 loop of `main` over the allocation table: every entry is
processed, each yielding its own `Except` outcome. -/
def run_mode1 (c : ClientData) : List (String × Params) →
    List (String × Except String (Option PlacedLimit))
  | [] => []
  | (t, ps) :: rest => (t, process1 c t ps) :: run_mode1 c rest

/-- One iteration of the mode-3 loop of `main`: resolve the FIGI (raising
when absent) and run `buy_share`; the order response and the portfolio
snapshots are indexed per ticker. -/
def process3 (c : ClientData) (executed : String → Option MoneyValue)
    (P : String → ℕ → List Position) (t : String) (ps : Params) :
    Except String (Option PlacedMarket) :=
  match get_figi c t with
  | none => .error ("ticker " ++ t ++ " not found")
  | some figi => buy_share c figi t ps.amount (executed t) (P t)

/-- The mode-3 loop of `main` over the allocation table: every entry is
processed, each yielding its own `Except` outcome. -/
def run_mode3 (c : ClientData) (executed : String → Option MoneyValue)
    (P : String → ℕ → List Position) : List (String × Params) →
    List (String × Except String (Option PlacedMarket))
  | [] => []
  | (t, ps) :: rest =>
      (t, process3 c executed P t ps) :: run_mode3 c executed P rest

/-! ## Helper lemmas -/

/-- C1: for every instrument whose FIGI appears in the bonds listing,
`get_share_price` returns `round(raw_quote * nominal / 100, 2)` where
`raw_quote` is the decoded depth-1 last price and `nominal` the bond's
decoded nominal; for every instrument not in the bonds listing it returns
`round(raw_quote, 2)`. -/
theorem get_share_price_spec (c : ClientData) (figi : String) :
    (∀ b, c.bonds.find? (fun x => x.figi == figi) = some b →
      get_share_price c figi =
        round2 (money_value_to_float (c.lastPrice figi) *
          money_value_to_float b.nominal / 100)) ∧
    ((∀ b ∈ c.bonds, b.figi ≠ figi) →
      get_share_price c figi = round2 (money_value_to_float (c.lastPrice figi))) := by
  constructor
  · intro b hb
    unfold get_share_price
    rw [hb]
  · intro h
    have hnone : c.bonds.find? (fun x => x.figi == figi) = none := by
      rw [List.find?_eq_none]
      intro x hx
      simpa using h x hx
    unfold get_share_price
    rw [hnone]

def bondRow : Instr := ⟨"SU26", "BFIGI", 1, ⟨1000, 0⟩⟩

def shareRow : Instr := ⟨"SBER", "SFIGI", 10, ⟨0, 0⟩⟩

def demoClient : ClientData :=
  ⟨[shareRow], [], [bondRow],
    fun f => if f = "BFIGI" then ⟨95, 500000000⟩ else ⟨180, 0⟩⟩

theorem get_share_price_spec_witness :
    get_share_price demoClient "BFIGI" =
      round2 (money_value_to_float (demoClient.lastPrice "BFIGI") *
        money_value_to_float bondRow.nominal / 100) ∧
    get_share_price demoClient "SFIGI" =
      round2 (money_value_to_float (demoClient.lastPrice "SFIGI")) := by
  constructor
  · exact (get_share_price_spec demoClient "BFIGI").1 bondRow (by decide)
  · refine (get_share_price_spec demoClient "SFIGI").2 ?_
    intro b hb
    have : b = bondRow := by simpa [demoClient] using hb
    subst this
    decide

/-- C4: the limit price is the entry's fixed price unmodified whenever one
is set (the discount is ignored), and otherwise
`round(quote * (1 - discount / 100), 2)` with the discount defaulting
to 3 when the entry does not specify one; the fixed prices of the
allocation table are positive, hence the truthiness hypothesis. -/
theorem limit_price_spec (price : ℚ) (ps : Params)
    (hdp : ∀ dp, ps.discount_price = some dp → 0 < dp) :
    limit_price_calc price ps =
      match ps.discount_price with
      | some dp => dp
      | none => round2 (price * (1 - ps.discount.getD 3 / 100)) := by
  unfold limit_price_calc DEFAULT_DISCOUNT
  cases h : ps.discount_price with
  | none => simp
  | some dp =>
      have : dp ≠ 0 := (hdp dp h).ne'
      simp [this]

theorem limit_price_spec_witness :
    limit_price_calc 50 ⟨3000, some 5, some 10⟩ = 10 ∧
    limit_price_calc 100 ⟨3000, none, none⟩ = 97 := by
  constructor
  · have h := limit_price_spec 50 ⟨3000, some 5, some 10⟩
      (by intro dp hdp; simp at hdp; subst hdp; norm_num)
    simpa using h
  · have h := limit_price_spec 100 ⟨3000, none, none⟩ (by intro dp hdp; simp at hdp)
    simp only [h]
    norm_num [round2, round_eq]

/-- C7: the lot-sizing function `floor(amount / (unit_price * lot_size))`
is monotonically non-decreasing in the amount and non-increasing in the
unit price and in the lot size, for positive inputs. -/
theorem lots_affordable_monotone (a a2 p p2 : ℚ) (ls ls2 : ℤ)
    (ha : 0 < a) (hp : 0 < p) (hl : 0 < ls)
    (ha2 : a ≤ a2) (hp2 : p ≤ p2) (hl2 : ls ≤ ls2) :
    lots_affordable a p ls ≤ lots_affordable a2 p ls ∧
    lots_affordable a p2 ls ≤ lots_affordable a p ls ∧
    lots_affordable a p ls2 ≤ lots_affordable a p ls := by
  have hlq : (0 : ℚ) < (ls : ℚ) := by exact_mod_cast hl
  have hlq2 : ((ls : ℚ)) ≤ ((ls2 : ℚ)) := by exact_mod_cast hl2
  unfold lots_affordable
  refine ⟨Int.floor_le_floor ?_, Int.floor_le_floor ?_, Int.floor_le_floor ?_⟩
  · gcongr
  · gcongr
  · gcongr

theorem lots_affordable_monotone_witness :
    lots_affordable 3000 (86 / 10) 1 ≤ lots_affordable 3100 (86 / 10) 1 ∧
    lots_affordable 3000 9 1 ≤ lots_affordable 3000 (86 / 10) 1 ∧
    lots_affordable 3000 (86 / 10) 2 ≤ lots_affordable 3000 (86 / 10) 1 :=
  lots_affordable_monotone 3000 3100 (86 / 10) 9 1 2
    (by norm_num) (by norm_num) (by norm_num) (by norm_num) (by norm_num) (by norm_num)

lemma figiOf_eq_find (l : List Instr) (t : String)
    (h : ∀ i ∈ l, i.ticker = t → i.figi ≠ "") :
    figiOf l t = (l.find? (fun i => i.ticker == t)).map Instr.figi := by
  unfold figiOf
  cases hf : l.find? (fun i => i.ticker == t) with
  | none => rfl
  | some i =>
      have hm : i ∈ l := List.mem_of_find?_eq_some hf
      have hp : i.ticker = t := by simpa using List.find?_some hf
      simp [h i hm hp]

lemma lotOf_eq_find (l : List Instr) (t : String)
    (h : ∀ i ∈ l, i.ticker = t → i.lot ≠ 0) :
    lotOf l t = (l.find? (fun i => i.ticker == t)).map Instr.lot := by
  unfold lotOf
  cases hf : l.find? (fun i => i.ticker == t) with
  | none => rfl
  | some i =>
      have hm : i ∈ l := List.mem_of_find?_eq_some hf
      have hp : i.ticker = t := by simpa using List.find?_some hf
      simp [h i hm hp]

lemma map_or3 {α β : Type} (f : α → β) (x y z : Option α) :
    (x.map f).or ((y.map f).or (z.map f)) = ((x.or y).or z).map f := by
  cases x <;> cases y <;> cases z <;> rfl

lemma map_find_none_iff {β : Type} (l : List Instr) (t : String) (f : Instr → β) :
    (l.find? (fun i => i.ticker == t)).map f = none ↔ ∀ i ∈ l, i.ticker ≠ t := by
  constructor
  · intro hmap i hi
    cases hf : l.find? (fun i => i.ticker == t) with
    | none => simpa using List.find?_eq_none.mp hf i hi
    | some j =>
        rw [hf] at hmap
        simp at hmap
  · intro h
    have hf : l.find? (fun i => i.ticker == t) = none :=
      List.find?_eq_none.mpr (fun i hi => by simpa using h i hi)
    rw [hf]
    rfl

/-- C3: under the data model's well-formedness (instruments carry a
non-empty FIGI and a non-zero lot size), both lookups scan the equity,
fund and bond listings in that priority order with an exact ticker match,
return the first match, fail exactly when no listing contains the ticker,
and a ticker present in the equity listing resolves there. -/
theorem resolver_priority_spec (c : ClientData) (t : String)
    (hfigi : ∀ i ∈ c.shares ++ c.etfs ++ c.bonds, i.ticker = t → i.figi ≠ "")
    (hlot : ∀ i ∈ c.shares ++ c.etfs ++ c.bonds, i.ticker = t → i.lot ≠ 0) :
    get_figi c t =
      ((c.shares ++ c.etfs ++ c.bonds).find? (fun i => i.ticker == t)).map Instr.figi ∧
    get_lot_size c t =
      ((c.shares ++ c.etfs ++ c.bonds).find? (fun i => i.ticker == t)).map Instr.lot ∧
    (get_figi c t = none ↔ ∀ i ∈ c.shares ++ c.etfs ++ c.bonds, i.ticker ≠ t) ∧
    (get_lot_size c t = none ↔ ∀ i ∈ c.shares ++ c.etfs ++ c.bonds, i.ticker ≠ t) ∧
    (∀ i, c.shares.find? (fun x => x.ticker == t) = some i →
      get_figi c t = some i.figi ∧ get_lot_size c t = some i.lot) := by
  have hs : ∀ i ∈ c.shares, i.ticker = t → i.figi ≠ "" :=
    fun i hi => hfigi i (by simp [hi])
  have he : ∀ i ∈ c.etfs, i.ticker = t → i.figi ≠ "" :=
    fun i hi => hfigi i (by simp [hi])
  have hb : ∀ i ∈ c.bonds, i.ticker = t → i.figi ≠ "" :=
    fun i hi => hfigi i (by simp [hi])
  have ls : ∀ i ∈ c.shares, i.ticker = t → i.lot ≠ 0 :=
    fun i hi => hlot i (by simp [hi])
  have le : ∀ i ∈ c.etfs, i.ticker = t → i.lot ≠ 0 :=
    fun i hi => hlot i (by simp [hi])
  have lb : ∀ i ∈ c.bonds, i.ticker = t → i.lot ≠ 0 :=
    fun i hi => hlot i (by simp [hi])
  have e1 : get_figi c t =
      ((c.shares ++ c.etfs ++ c.bonds).find? (fun i => i.ticker == t)).map Instr.figi := by
    unfold get_figi
    rw [figiOf_eq_find _ _ hs, figiOf_eq_find _ _ he, figiOf_eq_find _ _ hb,
      List.find?_append, List.find?_append, map_or3]
  have e2 : get_lot_size c t =
      ((c.shares ++ c.etfs ++ c.bonds).find? (fun i => i.ticker == t)).map Instr.lot := by
    unfold get_lot_size
    rw [lotOf_eq_find _ _ ls, lotOf_eq_find _ _ le, lotOf_eq_find _ _ lb,
      List.find?_append, List.find?_append, map_or3]
  refine ⟨e1, e2, ?_, ?_, ?_⟩
  · rw [e1]
    exact map_find_none_iff _ _ _
  · rw [e2]
    exact map_find_none_iff _ _ _
  · intro i hi
    constructor
    · unfold get_figi
      rw [figiOf_eq_find _ _ hs, hi]
      rfl
    · unfold get_lot_size
      rw [lotOf_eq_find _ _ ls, hi]
      rfl

def eqRow : Instr := ⟨"DUAL", "EQ1", 10, ⟨0, 0⟩⟩

def bdRow : Instr := ⟨"DUAL", "BD1", 1, ⟨1000, 0⟩⟩

def c3Client : ClientData := ⟨[eqRow], [], [bdRow], fun _ => ⟨0, 0⟩⟩

theorem resolver_priority_spec_witness :
    get_figi c3Client "DUAL" =
      ((c3Client.shares ++ c3Client.etfs ++ c3Client.bonds).find?
        (fun i => i.ticker == "DUAL")).map Instr.figi ∧
    get_lot_size c3Client "DUAL" =
      ((c3Client.shares ++ c3Client.etfs ++ c3Client.bonds).find?
        (fun i => i.ticker == "DUAL")).map Instr.lot ∧
    (get_figi c3Client "DUAL" = none ↔
      ∀ i ∈ c3Client.shares ++ c3Client.etfs ++ c3Client.bonds, i.ticker ≠ "DUAL") ∧
    (get_lot_size c3Client "DUAL" = none ↔
      ∀ i ∈ c3Client.shares ++ c3Client.etfs ++ c3Client.bonds, i.ticker ≠ "DUAL") ∧
    (∀ i, c3Client.shares.find? (fun x => x.ticker == "DUAL") = some i →
      get_figi c3Client "DUAL" = some i.figi ∧
      get_lot_size c3Client "DUAL" = some i.lot) :=
  resolver_priority_spec c3Client "DUAL" (by decide) (by decide)

lemma figiOf_ne_some_empty (l : List Instr) (t : String) : figiOf l t ≠ some "" := by
  unfold figiOf
  cases l.find? (fun i => i.ticker == t) with
  | none => simp
  | some i =>
      by_cases h : i.figi = "" <;> simp [h]

lemma lotOf_ne_some_zero (l : List Instr) (t : String) : lotOf l t ≠ some 0 := by
  unfold lotOf
  cases l.find? (fun i => i.ticker == t) with
  | none => simp
  | some i =>
      by_cases h : i.lot = 0 <;> simp [h]

lemma or_ne_some {α : Type} (x y : Option α) (a : α)
    (hx : x ≠ some a) (hy : y ≠ some a) : x.or y ≠ some a := by
  cases x with
  | none => simpa using hy
  | some v => simpa using hx

/-- C10: the resolver treats falsy attribute values as absence — in each
lookup independently, a first ticker match carrying the falsy value (an
empty FIGI for the FIGI lookup, a zero lot for the lot lookup) in the
shares listing or in the etfs listing is skipped, resolution falling
through to the remaining lower-priority listings (hence to the not-found
error when those also fail), and neither lookup can ever return the falsy
value itself. -/
theorem resolver_skips_falsy (c : ClientData) (t : String) :
    (∀ i, c.shares.find? (fun x => x.ticker == t) = some i → i.figi = "" →
      get_figi c t = (figiOf c.etfs t).or (figiOf c.bonds t)) ∧
    (∀ i, c.etfs.find? (fun x => x.ticker == t) = some i → i.figi = "" →
      get_figi c t = (figiOf c.shares t).or (figiOf c.bonds t)) ∧
    (∀ i, c.shares.find? (fun x => x.ticker == t) = some i → i.lot = 0 →
      get_lot_size c t = (lotOf c.etfs t).or (lotOf c.bonds t)) ∧
    (∀ i, c.etfs.find? (fun x => x.ticker == t) = some i → i.lot = 0 →
      get_lot_size c t = (lotOf c.shares t).or (lotOf c.bonds t)) ∧
    get_figi c t ≠ some "" ∧ get_lot_size c t ≠ some 0 := by
  refine ⟨?_, ?_, ?_, ?_, ?_, ?_⟩
  · intro i h1 h2
    have hf : figiOf c.shares t = none := by
      unfold figiOf
      rw [h1]
      simp [h2]
    unfold get_figi
    rw [hf]
    rfl
  · intro i h1 h2
    have hf : figiOf c.etfs t = none := by
      unfold figiOf
      rw [h1]
      simp [h2]
    unfold get_figi
    rw [hf]
    cases figiOf c.shares t <;> rfl
  · intro i h1 h3
    have hl : lotOf c.shares t = none := by
      unfold lotOf
      rw [h1]
      simp [h3]
    unfold get_lot_size
    rw [hl]
    rfl
  · intro i h1 h3
    have hl : lotOf c.etfs t = none := by
      unfold lotOf
      rw [h1]
      simp [h3]
    unfold get_lot_size
    rw [hl]
    cases lotOf c.shares t <;> rfl
  · unfold get_figi
    exact or_ne_some _ _ _ (figiOf_ne_some_empty _ _)
      (or_ne_some _ _ _ (figiOf_ne_some_empty _ _) (figiOf_ne_some_empty _ _))
  · unfold get_lot_size
    exact or_ne_some _ _ _ (lotOf_ne_some_zero _ _)
      (or_ne_some _ _ _ (lotOf_ne_some_zero _ _) (lotOf_ne_some_zero _ _))

def falsyFigiRow : Instr := ⟨"XX", "", 1, ⟨0, 0⟩⟩

def falsyLotRow : Instr := ⟨"XX", "SF", 0, ⟨0, 0⟩⟩

def falsyBothRow : Instr := ⟨"XX", "", 0, ⟨0, 0⟩⟩

def goodRow : Instr := ⟨"XX", "GOODF", 5, ⟨0, 0⟩⟩

def bondXX : Instr := ⟨"XX", "BF", 2, ⟨0, 0⟩⟩

def c10ClientA : ClientData := ⟨[falsyFigiRow], [goodRow], [], fun _ => ⟨0, 0⟩⟩

def c10ClientB : ClientData := ⟨[], [falsyBothRow], [bondXX], fun _ => ⟨0, 0⟩⟩

def c10ClientC : ClientData := ⟨[falsyLotRow], [goodRow], [], fun _ => ⟨0, 0⟩⟩

theorem resolver_skips_falsy_witness :
    get_figi c10ClientA "XX" =
      (figiOf c10ClientA.etfs "XX").or (figiOf c10ClientA.bonds "XX") ∧
    get_figi c10ClientB "XX" =
      (figiOf c10ClientB.shares "XX").or (figiOf c10ClientB.bonds "XX") ∧
    get_lot_size c10ClientC "XX" =
      (lotOf c10ClientC.etfs "XX").or (lotOf c10ClientC.bonds "XX") ∧
    get_lot_size c10ClientB "XX" =
      (lotOf c10ClientB.shares "XX").or (lotOf c10ClientB.bonds "XX") ∧
    get_figi c10ClientB "XX" ≠ some "" ∧ get_lot_size c10ClientB "XX" ≠ some 0 :=
  ⟨(resolver_skips_falsy c10ClientA "XX").1 falsyFigiRow (by decide) (by decide),
   (resolver_skips_falsy c10ClientB "XX").2.1 falsyBothRow (by decide) (by decide),
   (resolver_skips_falsy c10ClientC "XX").2.2.1 falsyLotRow (by decide) (by decide),
   (resolver_skips_falsy c10ClientB "XX").2.2.2.1 falsyBothRow (by decide) (by decide),
   (resolver_skips_falsy c10ClientB "XX").2.2.2.2.1,
   (resolver_skips_falsy c10ClientB "XX").2.2.2.2.2⟩

lemma poll_positions_attempts_le (P : ℕ → List Position) (figi : String) :
    ∀ (fuel : ℕ) (rp : Option ℚ) (a : ℕ),
      (poll_positions P figi rp a fuel).2 ≤ a + fuel := by
  intro fuel
  induction fuel with
  | zero =>
      intro rp a
      simp [poll_positions]
  | succ n ih =>
      intro rp a
      rw [poll_positions]
      split
      · simp only []
        omega
      · exact le_trans (ih _ _) (by omega)

lemma poll_positions_all_none (P : ℕ → List Position) (figi : String) :
    ∀ (fuel : ℕ) (a : ℕ),
      (∀ j, a ≤ j → j < a + fuel → findPrice (P j) figi = none) →
      poll_positions P figi none a fuel = (none, a + fuel) := by
  intro fuel
  induction fuel with
  | zero =>
      intro a _
      simp [poll_positions]
  | succ n ih =>
      intro a h
      have h0 : findPrice (P a) figi = none := h a le_rfl (by omega)
      rw [poll_positions]
      simp only [h0]
      rw [if_neg (by simp [pyTruthyQ])]
      rw [ih (a + 1) (fun j hj1 hj2 => h j (by omega) (by omega))]
      congr 1
      omega

lemma poll_positions_first_found (P : ℕ → List Position) (figi : String) :
    ∀ (fuel : ℕ) (a k : ℕ) (q : ℚ), a ≤ k → k < a + fuel →
      (∀ j, a ≤ j → j < k → findPrice (P j) figi = none) →
      findPrice (P k) figi = some q → q ≠ 0 →
      poll_positions P figi none a fuel = (some q, k + 1) := by
  intro fuel
  induction fuel with
  | zero =>
      intro a k q hak hk _ _ _
      omega
  | succ n ih =>
      intro a k q hak hk hnone hfound hq
      by_cases hka : k = a
      · subst hka
        rw [poll_positions]
        simp only [hfound]
        rw [if_pos (by simp [pyTruthyQ, hq])]
      · have h0 : findPrice (P a) figi = none := hnone a le_rfl (by omega)
        rw [poll_positions]
        simp only [h0]
        rw [if_neg (by simp [pyTruthyQ])]
        exact ih (a + 1) k q (by omega) (by omega)
          (fun j hj1 hj2 => hnone j (by omega) hj2) hfound hq

/-- C5: in market-buy mode, when the order response carries an executed
price it is used and no polling occurs; when it is absent, the portfolio
is polled at most 5 times (each preceded by the fixed wait), polling stops
on the first attempt whose snapshot contains a position matching the FIGI
with a populated average-entry price, and after 5 fruitless attempts the
price is reported unknown.  The hypothesis records that populated average
prices decode to a non-zero value (a zero decode is falsy in Python). -/
theorem market_buy_confirmation_spec (P : ℕ → List Position) (figi : String)
    (hq : ∀ k q, findPrice (P k) figi = some q → q ≠ 0) :
    (∀ m, buy_confirm (some m) P figi = (some (money_value_to_float m), 0)) ∧
    (buy_confirm none P figi).2 ≤ 5 ∧
    (∀ k q, k < 5 → (∀ j, j < k → findPrice (P j) figi = none) →
      findPrice (P k) figi = some q →
      buy_confirm none P figi = (some q, k + 1)) ∧
    ((∀ j, j < 5 → findPrice (P j) figi = none) →
      buy_confirm none P figi = (none, 5)) := by
  refine ⟨fun m => rfl, ?_, ?_, ?_⟩
  · exact poll_positions_attempts_le P figi 5 none 0
  · intro k q hk hnone hfound
    exact poll_positions_first_found P figi 5 0 k q (by omega) (by omega)
      (fun j _ hj => hnone j hj) hfound (hq k q hfound)
  · intro h
    exact poll_positions_all_none P figi 5 0 (fun j _ hj => h j hj)

def c5Pos : Position := ⟨"F", some ⟨7, 0⟩⟩

def c5P : ℕ → List Position := fun _ => [c5Pos]

def c5Empty : ℕ → List Position := fun _ => []

theorem market_buy_confirmation_spec_witness :
    buy_confirm (some ⟨3, 0⟩) c5P "F" = (some (money_value_to_float ⟨3, 0⟩), 0) ∧
    buy_confirm none c5P "F" = (some (money_value_to_float ⟨7, 0⟩), 1) ∧
    buy_confirm none c5Empty "F" = (none, 5) := by
  have hfind : ∀ k, findPrice (c5P k) "F" = some (money_value_to_float ⟨7, 0⟩) :=
    fun k => rfl
  have hq : ∀ k q, findPrice (c5P k) "F" = some q → q ≠ 0 := by
    intro k q h
    rw [hfind k] at h
    have hv : money_value_to_float ⟨7, 0⟩ = 7 := by
      norm_num [money_value_to_float, round2, round_eq]
    simp only [Option.some.injEq] at h
    rw [← h, hv]
    norm_num
  have hq2 : ∀ k q, findPrice (c5Empty k) "F" = some q → q ≠ 0 := by
    intro k q h
    simp [findPrice, c5Empty] at h
  refine ⟨(market_buy_confirmation_spec c5P "F" hq).1 ⟨3, 0⟩, ?_, ?_⟩
  · exact (market_buy_confirmation_spec c5P "F" hq).2.2.1 0
      (money_value_to_float ⟨7, 0⟩) (by omega) (fun j hj => absurd hj (by omega))
      (hfind 0)
  · exact (market_buy_confirmation_spec c5Empty "F" hq2).2.2.2
      (fun j _ => by simp [findPrice, c5Empty])

/-- C6: the money codec round-trips — encoding any non-negative decimal
amount with at most two fractional digits (`n / 100` for a natural `n`)
the way the limit-order price is encoded, then decoding it with
`money_value_to_float`, reproduces the amount. -/
theorem money_codec_roundtrip (n : ℕ) :
    money_value_to_float (encodeMoney ((n : ℚ) / 100)) = (n : ℚ) / 100 := by
  obtain ⟨m, k, hk, rfl⟩ : ∃ m k, k < 100 ∧ n = 100 * m + k :=
    ⟨n / 100, n % 100, Nat.mod_lt _ (by norm_num), (Nat.div_add_mod n 100).symm⟩
  have hq : ((100 * m + k : ℕ) : ℚ) / 100 = (m : ℚ) + (k : ℚ) / 100 := by
    push_cast
    ring
  have hk1 : ((k : ℚ)) / 100 < 1 := by
    rw [div_lt_one (by norm_num)]
    exact_mod_cast hk
  have hk0 : (0 : ℚ) ≤ (k : ℚ) / 100 := by positivity
  have hfl : ⌊((100 * m + k : ℕ) : ℚ) / 100⌋ = (m : ℤ) := by
    rw [hq, Int.floor_eq_iff]
    constructor
    · push_cast
      linarith
    · push_cast
      linarith
  have henc : encodeMoney (((100 * m + k : ℕ) : ℚ) / 100) =
      ⟨(m : ℤ), (k : ℤ) * 10 ^ 7⟩ := by
    unfold encodeMoney pyTrunc
    rw [hfl]
    rw [if_pos (by positivity)]
    have h2 : (((100 * m + k : ℕ) : ℚ) / 100 - ((m : ℤ) : ℚ)) * 10 ^ 9 =
        ((k : ℤ) * 10 ^ 7 : ℤ) := by
      push_cast
      ring
    rw [h2]
    rw [if_pos (by positivity)]
    rw [Int.floor_intCast]
  have hdec : money_value_to_float ⟨(m : ℤ), (k : ℤ) * 10 ^ 7⟩ =
      ((100 * m + k : ℕ) : ℚ) / 100 := by
    unfold money_value_to_float round2
    have h3 : ((((m : ℤ) : ℚ) + ((k : ℤ) * 10 ^ 7 : ℤ) / 10 ^ 9) * 100) =
        ((100 * m + k : ℕ) : ℚ) := by
      push_cast
      ring
    show (round ((((m : ℤ) : ℚ) + ((k : ℤ) * 10 ^ 7 : ℤ) / 10 ^ 9) * 100) : ℚ) / 100 =
      ((100 * m + k : ℕ) : ℚ) / 100
    rw [h3, round_natCast]
    push_cast
    ring
  rw [henc, hdec]

lemma run_mode1_append (c : ClientData) (l1 l2 : List (String × Params)) :
    run_mode1 c (l1 ++ l2) = run_mode1 c l1 ++ run_mode1 c l2 := by
  induction l1 with
  | nil => rfl
  | cons e rest ih =>
      obtain ⟨t, ps⟩ := e
      simp [run_mode1, ih]

lemma run_mode3_append (c : ClientData) (executed : String → Option MoneyValue)
    (P : String → ℕ → List Position) (l1 l2 : List (String × Params)) :
    run_mode3 c executed P (l1 ++ l2) =
      run_mode3 c executed P l1 ++ run_mode3 c executed P l2 := by
  induction l1 with
  | nil => rfl
  | cons e rest ih =>
      obtain ⟨t, ps⟩ := e
      simp [run_mode3, ih]

/-- C8: mode-wise, when an entry's computed lot count is 0 no order is
submitted for it in the running mode — the result is the insufficiency
report `.ok none`, not an error — and that mode's batch driver still
processes every entry before and after it unchanged.  The non-zero unit
price hypotheses confine the statement to the region where the lot count
is actually computed: at unit price 0 the script's floor division raises
`ZeroDivisionError` (a caught per-entry error) instead of reporting
insufficiency. -/
theorem zero_lots_skips_order (c : ClientData) (figi t : String) (ps : Params)
    (executed : String → Option MoneyValue) (P : String → ℕ → List Position)
    (lot : ℤ) (pre post : List (String × Params))
    (hfigi : get_figi c t = some figi)
    (hlot : get_lot_size c t = some lot) :
    (limit_price_calc (get_share_price c figi) ps ≠ 0 →
      lots_affordable ps.amount
        (limit_price_calc (get_share_price c figi) ps) lot = 0 →
      place_limit_order c figi t ps.amount ps = .ok none ∧
      run_mode1 c (pre ++ (t, ps) :: post) =
        run_mode1 c pre ++ (t, .ok none) :: run_mode1 c post) ∧
    (get_share_price c figi ≠ 0 →
      lots_affordable ps.amount (get_share_price c figi) lot = 0 →
      buy_share c figi t ps.amount (executed t) (P t) = .ok none ∧
      run_mode3 c executed P (pre ++ (t, ps) :: post) =
        run_mode3 c executed P pre ++
          (t, .ok none) :: run_mode3 c executed P post) := by
  constructor
  · intro _ hlim
    have hpl : place_limit_order c figi t ps.amount ps = .ok none := by
      unfold place_limit_order
      rw [hlot]
      simp only [hlim]
      rw [if_neg (by omega)]
    refine ⟨hpl, ?_⟩
    rw [run_mode1_append]
    simp [run_mode1, process1, hfigi, hpl]
  · intro _ hmkt
    have hbs : buy_share c figi t ps.amount (executed t) (P t) = .ok none := by
      unfold buy_share
      rw [hlot]
      simp only [hmkt]
      rw [if_neg (by omega)]
    refine ⟨hbs, ?_⟩
    rw [run_mode3_append]
    simp [run_mode3, process3, hfigi, hbs]

def c8Client : ClientData := ⟨[⟨"T", "F", 1, ⟨0, 0⟩⟩], [], [], fun _ => ⟨100, 0⟩⟩

def c8Params : Params := ⟨50, some 0, none⟩

theorem zero_lots_skips_order_witness :
    (place_limit_order c8Client "F" "T" c8Params.amount c8Params = .ok none ∧
      run_mode1 c8Client ([] ++ ("T", c8Params) :: [("B", c8Params)]) =
        run_mode1 c8Client [] ++
          ("T", .ok none) :: run_mode1 c8Client [("B", c8Params)]) ∧
    (buy_share c8Client "F" "T" c8Params.amount none (fun _ => []) = .ok none ∧
      run_mode3 c8Client (fun _ => none) (fun _ _ => [])
          ([] ++ ("T", c8Params) :: [("B", c8Params)]) =
        run_mode3 c8Client (fun _ => none) (fun _ _ => []) [] ++
          ("T", .ok none) :: run_mode3 c8Client (fun _ => none) (fun _ _ => [])
            [("B", c8Params)]) := by
  have hprice : get_share_price c8Client "F" = 100 := by
    norm_num [get_share_price, c8Client, money_value_to_float, round2, round_eq]
  have hlimit : limit_price_calc 100 c8Params = 100 := by
    norm_num [limit_price_calc, c8Params, round2, round_eq]
  have h := zero_lots_skips_order c8Client "F" "T" c8Params (fun _ => none)
    (fun _ _ => []) 1 [] [("B", c8Params)] (by decide) (by decide)
  exact ⟨h.1 (by rw [hprice, hlimit]; norm_num)
      (by rw [hprice, hlimit]; norm_num [lots_affordable, c8Params]),
    h.2 (by rw [hprice]; norm_num)
      (by rw [hprice]; norm_num [lots_affordable, c8Params])⟩

lemma cancel_orders_append (cancel : String → Except String Unit)
    (l1 l2 : List OpenOrder) :
    cancel_orders cancel (l1 ++ l2) =
      cancel_orders cancel l1 ++ cancel_orders cancel l2 := by
  induction l1 with
  | nil => rfl
  | cons o rest ih =>
      cases hc : cancel o.order_id <;>
        simp [cancel_orders, hc, ih]

lemma cancel_orders_map_fst (cancel : String → Except String Unit)
    (l : List OpenOrder) :
    (cancel_orders cancel l).map Prod.fst = l.map OpenOrder.order_id := by
  induction l with
  | nil => rfl
  | cons o rest ih =>
      rw [cancel_orders]
      cases cancel o.order_id <;> simp [ih]

/-- C9: in cancel-all-orders mode a cancellation failure on one order does
not prevent the remaining orders from being attempted: the batch result
records the failing order with its failure flag in place and every order
of the batch exactly once, in order, each with its own outcome. -/
theorem cancel_failure_isolated (cancel : String → Except String Unit)
    (pre post : List OpenOrder) (o : OpenOrder) (e : String)
    (hfail : cancel o.order_id = .error e) :
    cancel_orders cancel (pre ++ o :: post) =
      cancel_orders cancel pre ++ (o.order_id, false) :: cancel_orders cancel post ∧
    (cancel_orders cancel (pre ++ o :: post)).map Prod.fst =
      (pre ++ o :: post).map OpenOrder.order_id := by
  constructor
  · rw [cancel_orders_append, cancel_orders, hfail]
  · exact cancel_orders_map_fst cancel _

def c9Cancel : String → Except String Unit :=
  fun id => if id = "A" then .error "boom" else .ok ()

def ordP : OpenOrder := ⟨"P"⟩

def ordA : OpenOrder := ⟨"A"⟩

def ordQ : OpenOrder := ⟨"Q"⟩

theorem cancel_failure_isolated_witness :
    cancel_orders c9Cancel ([ordP] ++ ordA :: [ordQ]) =
      cancel_orders c9Cancel [ordP] ++
        ("A", false) :: cancel_orders c9Cancel [ordQ] ∧
    (cancel_orders c9Cancel ([ordP] ++ ordA :: [ordQ])).map Prod.fst =
      ([ordP] ++ ordA :: [ordQ]).map OpenOrder.order_id :=
  cancel_failure_isolated c9Cancel [ordP] [ordQ] ordA "boom" rfl

/-- C6, counterexample to the unrestricted claim: the script encodes with
Python `int()` (truncation toward zero) while `p % 1` reduces modulo the
floor, so the negative two-fractional-digit amount `-1.25` encodes to
`(units, nanos) = (-1, 750000000)` and decodes to `-0.25`, not `-1.25`. -/
theorem money_codec_roundtrip_counterexample :
    money_value_to_float (encodeMoney (-5 / 4)) ≠ -5 / 4 := by
  have hu : pyTrunc (-5 / 4) = -1 := by
    rw [pyTrunc, if_neg (by norm_num)]
    norm_num [Int.ceil_eq_iff]
  have hfl : ⌊(-5 / 4 : ℚ)⌋ = -2 := by
    rw [Int.floor_eq_iff]
    norm_num
  have hn : pyTrunc ((-5 / 4 - (⌊(-5 / 4 : ℚ)⌋ : ℚ)) * 10 ^ 9) = 750000000 := by
    rw [hfl, pyTrunc, if_pos (by norm_num)]
    norm_num [Int.floor_eq_iff]
  rw [encodeMoney, hu, hn]
  rw [money_value_to_float, round2]
  norm_num [round_eq]
